import Mathlib

/-!
Verification of the two command-line tools of this repository,
`src/md_to_notion.py` (Markdown → Notion uploader) and `src/gpt.py`
(terminal chat client), against their specification.

Strings are modelled as `List Char`.  The regular expressions used by the
source (`\$\$.*?\$\$|\$.*?\$|\*\*.*?\*\*` for inline spans and
`!\[(.*?)\]\((.*?)\)` for image references) are modelled by explicit lazy
scanning functions that mirror Python `re` semantics for exactly those
patterns (leftmost scan, alternatives tried in order, lazy `.*?` taking the
shortest body, `.` not matching a newline character).  Filesystem and
network effects (`os.path.exists`, `os.path.join` relative to the Markdown
file's directory, the imgbb upload, the completion endpoint) are modelled
as oracle functions supplied through a structure; each HTTP submission of
a block is modelled as an element of the emitted block list, and a raised
`ValueError` of `get_env_var` as an error value.  The scanning loop of
`process_text_block` is written with a fuel parameter, one unit per loop
step; `line.length + 1` units always suffice, so the top-level function
behaves exactly like the unbounded loop.
-/

/-- The ASCII whitespace characters recognised by Python's `str.strip()`
and `str.split()` (exotic unicode whitespace is not modelled). -/
def isPySpace (c : Char) : Bool :=
  c = ' ' || c = '\t' || c = '\n' || c = '\r' || c = '\x0b' || c = '\x0c'

/-- Python `str.strip()`: drop leading and trailing whitespace. -/
def pystrip (l : List Char) : List Char :=
  ((l.dropWhile isPySpace).reverse.dropWhile isPySpace).reverse

/-- The first whitespace-separated token of a string, i.e. `s.split()[0]`
of Python (empty when the string holds no token). -/
def firstTok (l : List Char) : List Char :=
  (l.dropWhile isPySpace).takeWhile (fun c => !isPySpace c)

/-- The `$$` delimiter. -/
def ddTok : List Char := ['$', '$']

/-- The `$` delimiter. -/
def dTok : List Char := ['$']

/-- The `**` delimiter. -/
def bTok : List Char := ['*', '*']

/-- `leadsWith p s` is Python `s.startswith(p)`. -/
def leadsWith : List Char → List Char → Bool
  | [], _ => true
  | _ :: _, [] => false
  | p :: ps, c :: cs => p == c && leadsWith ps cs

/-- `trailsWith p s` is Python `s.endswith(p)`. -/
def trailsWith (p s : List Char) : Bool := leadsWith p.reverse s.reverse

/-- Lazy search for a closing delimiter `cl`: splits `s` as
`body ++ cl ++ rest` at the first occurrence of `cl`, the body being
matched by Python's `.*?` (so it may not contain a newline).  Returns
`none` when no such split exists. -/
def lazyClose (cl : List Char) : List Char → Option (List Char × List Char)
  | [] => none
  | c :: cs =>
    if leadsWith cl (c :: cs) then some ([], (c :: cs).drop cl.length)
    else if c = '\n' then none
    else
      match lazyClose cl cs with
      | some (b, r) => some (c :: b, r)
      | none => none

/-- One alternative `op ++ .*? ++ cl` of the span regex, anchored at the
start of `s`; returns the whole match and the remaining input. -/
def tryAlt (op cl : List Char) (s : List Char) : Option (List Char × List Char) :=
  if leadsWith op s then
    match lazyClose cl (s.drop op.length) with
    | some (b, r) => some (op ++ b ++ cl, r)
    | none => none
  else none

/-- The full alternation `\$\$.*?\$\$|\$.*?\$|\*\*.*?\*\*` anchored at the
start of `s`: alternatives are tried in the source order. -/
def tryTok (s : List Char) : Option (List Char × List Char) :=
  match tryAlt ddTok ddTok s with
  | some r => some r
  | none =>
    match tryAlt dTok dTok s with
    | some r => some r
    | none => tryAlt bTok bTok s

/-- One element of the `rich_text` list built by
`MarkdownParser.process_text_block`. -/
inductive RichPart where
  | plain : List Char → RichPart
  | boldText : List Char → RichPart
  | inlineEq : List Char → RichPart
deriving DecidableEq, Repr

/-- The `if/elif` classification of one regex match inside
`process_text_block`: a `$$...$$` match stays literal plain text, a
`$...$` match becomes an inline equation with the delimiters stripped, a
`**...**` match becomes bold text with the delimiters stripped. -/
def classify (m : List Char) : List RichPart :=
  if leadsWith ddTok m && trailsWith ddTok m then [RichPart.plain m]
  else if leadsWith dTok m && trailsWith dTok m then
    [RichPart.inlineEq ((m.drop 1).dropLast)]
  else if leadsWith bTok m && trailsWith bTok m then
    [RichPart.boldText ((m.drop 2).dropLast.dropLast)]
  else []

/-- The pending plain-text gap flushed before a match and at the end of
the line: `line[last_end:match.start()]` and `line[last_end:]` of the
source.  The gap is accumulated in reverse. -/
def flushGap (gap : List Char) : List RichPart :=
  if gap.isEmpty then [] else [RichPart.plain gap.reverse]

/-- The `pattern.finditer` loop of `process_text_block`: scan left to
right; at each position try the alternation; on a match flush the pending
gap, classify the match and continue after it, otherwise the character
joins the gap.  One unit of fuel is spent per step; the entry point
supplies more fuel than the line is long, so the fuel never runs out. -/
def scanParts : Nat → List Char → List Char → List RichPart
  | 0, gap, _ => flushGap gap
  | fuel + 1, gap, s =>
    match tryTok s with
    | some (m, r) => flushGap gap ++ (classify m ++ scanParts fuel [] r)
    | none =>
      match s with
      | [] => flushGap gap
      | c :: cs => scanParts fuel (c :: gap) cs

/-- `MarkdownParser.process_text_block`: split a paragraph line into
rich-text spans. -/
def process_text_block (line : List Char) : List RichPart :=
  scanParts (line.length + 1) [] line

/-- The raw content of one span: the stripped delimiters re-inserted for
inline equations and bold text, plain text (gaps and `$$...$$` tokens)
kept verbatim. -/
def spanRaw : RichPart → List Char
  | RichPart.plain c => c
  | RichPart.boldText c => bTok ++ c ++ bTok
  | RichPart.inlineEq e => dTok ++ e ++ dTok

/-- Concatenated raw content of a span list. -/
def partsRaw (ps : List RichPart) : List Char := (ps.map spanRaw).flatten

/-- One Notion block as built by `NotionBlockFactory` and submitted through
`NotionClient.create_block`.  `textB bt c` is `create_text_block(c, bt)`
(used for headings and for image alt text), `richTextB` is
`create_rich_text_block`, `imageB` is `create_image_block`, `equationB` is
`create_equation_block`. -/
inductive Block where
  | textB : List Char → List Char → Block
  | richTextB : List RichPart → Block
  | imageB : List Char → Block
  | equationB : List Char → Block
deriving DecidableEq, Repr

/-- The `block_type` string `f"heading_{level}"`. -/
def headingT (level : Nat) : List Char := ("heading_".data) ++ (Nat.repr level).data

/-- The default `block_type` string `"paragraph"` of `create_text_block`. -/
def paragraphT : List Char := "paragraph".data

/-- The heading test `line.startswith(("# ", "## ", "### "))`. -/
def isHeadingLine (line : List Char) : Bool :=
  leadsWith ['#', ' '] line || leadsWith ['#', '#', ' '] line ||
    leadsWith ['#', '#', '#', ' '] line

/-- `"\n".join(acc)`. -/
def joinNL (acc : List (List Char)) : List Char := List.intercalate ['\n'] acc

/-- Lazy search for the split `alt ++ "](" ++ target ++ ")" ++ _` used by
the image regex `!\[(.*?)\]\((.*?)\)` after the literal `![`: the first
`](` followed by a later `)` wins (Python backtracking extends the lazy
`alt` group past a `](` that has no closing parenthesis after it). -/
def findAlt : List Char → Option (List Char × List Char)
  | [] => none
  | c :: cs =>
    let ext : Option (List Char × List Char) :=
      if c = '\n' then none
      else (findAlt cs).map (fun t => (c :: t.1, t.2))
    if c = ']' then
      match cs with
      | '(' :: cs2 =>
        match lazyClose [')'] cs2 with
        | some (tgt, _) => some ([], tgt)
        | none => ext
      | _ => ext
    else ext

/-- `re.match(r"!\[(.*?)\]\((.*?)\)", line)`: the groups `(alt, target)`
when the anchored image-reference pattern matches. -/
def imgMatch (line : List Char) : Option (List Char × List Char) :=
  match line with
  | '!' :: '[' :: rest => findAlt rest
  | _ => none

/-- The filesystem/network environment of one `parse_and_upload` run:
`pathExists p` is `os.path.exists(p)`, `joinDir p` is
`os.path.join(os.path.dirname(md_file_path), p)`, and `uploadResult p` is
the hosted URL returned by `ImageUploader.upload_to_imgbb(p)` (`none` on
an HTTP error or a raised-and-caught exception). -/
structure FS where
  pathExists : List Char → Bool
  joinDir : List Char → List Char
  uploadResult : List Char → Option (List Char)

/-- `MarkdownParser._resolve_local_image`: fall back to the Markdown
file's directory when the path does not exist as given, return `none`
(with a warning printed) when still missing, otherwise upload. -/
def resolveLocalImage (fs : FS) (p : List Char) : Option (List Char) :=
  let p1 := if fs.pathExists p then p else fs.joinDir p
  if fs.pathExists p1 then fs.uploadResult p1 else none

/-- `"http"`. -/
def httpL : List Char := "http".data

/-- One iteration of the `for line in lines` loop of
`MarkdownParser.parse_and_upload`: strips the line, classifies it
(blank / heading / `$$` delimiter / accumulation / image / paragraph), and
returns the new accumulator state (`current_equation`) together with the
blocks submitted via `NotionClient.create_block`, in submission order. -/
def processLine (fs : FS) (st : Option (List (List Char))) (raw : List Char) :
    Option (List (List Char)) × List Block :=
  let line := pystrip raw
  if line = [] then (st, [])
  else if isHeadingLine line then
    (st, [Block.textB (headingT (firstTok line).length)
            (line.drop ((firstTok line).length + 1))])
  else if line = ddTok then
    match st with
    | none => (some [], [])
    | some acc => (none, [Block.equationB (joinNL acc)])
  else
    match st with
    | some acc => (some (acc ++ [line]), [])
    | none =>
      match imgMatch line with
      | some (alt, tgt) =>
        let url := if leadsWith httpL tgt then some tgt else resolveLocalImage fs tgt
        match url with
        | some u =>
          if u = [] then (none, [])
          else (none, Block.imageB u ::
            (if alt = [] then [] else [Block.textB paragraphT alt]))
        | none => (none, [])
      | none => (none, [Block.richTextB (process_text_block line)])

/-- The whole `for` loop of `parse_and_upload`, threading the accumulator
through the lines and collecting every submitted block in order. -/
def runLines (fs : FS) (st : Option (List (List Char))) :
    List (List Char) → Option (List (List Char)) × List Block
  | [] => (st, [])
  | l :: ls =>
    let p1 := processLine fs st l
    let p2 := runLines fs p1.1 ls
    (p2.1, p1.2 ++ p2.2)

/-- `MarkdownParser.parse_and_upload`: the blocks submitted for a file
read as `lines`, starting with `current_equation = None`; whatever is
still accumulated at end-of-file is dropped with the local variable. -/
def parse_and_upload (fs : FS) (lines : List (List Char)) : List Block :=
  (runLines fs none lines).2

/-- One message of the chat request of `gpt.py`. -/
structure ChatMessage where
  role : List Char
  content : List Char
deriving DecidableEq, Repr

/-- `"user"`. -/
def userRole : List Char := "user".data

/-- The suffix `'简要回答'` appended to the prompt by `main` of `gpt.py`
just before the request (`prompt += '简要回答'`). -/
def briefSuffix : List Char := "简要回答".data

/-- The `messages` list of the single `openai.ChatCompletion.create` call
made by `chat_with_gpt`. -/
def chat_request (prompt : List Char) : List ChatMessage :=
  [⟨userRole, prompt⟩]

/-- `chat_with_gpt`: issue the one-message request and return
`response["choices"][0]["message"]["content"].strip()`.  The completion
endpoint is the oracle `api`, mapping the request messages to the first
choice's message content. -/
def chat_with_gpt (api : List ChatMessage → List Char) (prompt : List Char) :
    List Char :=
  pystrip (api (chat_request prompt))

/-- The prompt `main` of `gpt.py` assembles: piped standard input
(stripped) when stdin is not a tty, else the space-joined command-line
arguments when any are present, else nothing (usage text, no request). -/
def mainPrompt (stdinPiped : Bool) (stdinText : List Char)
    (argv : List (List Char)) : Option (List Char) :=
  if stdinPiped then some (pystrip stdinText)
  else if argv.isEmpty then none
  else some (List.intercalate [' '] argv)

/-- The request `main` issues for the user's prompt `p`: `chat_with_gpt`
is called on `p + '简要回答'`. -/
def main_request (userPrompt : List Char) : List ChatMessage :=
  chat_request (userPrompt ++ briefSuffix)

/-- The reply `main` renders for the user's prompt `p`. -/
def main_reply (api : List ChatMessage → List Char) (userPrompt : List Char) :
    List Char :=
  chat_with_gpt api (userPrompt ++ briefSuffix)

/-- Result of reading a required credential at startup: `ok v` returns the
value, `err` models the raised `ValueError`. -/
inductive EnvResult where
  | ok : List Char → EnvResult
  | err : EnvResult
deriving DecidableEq, Repr

/-- `get_env_var` of `gpt.py`: raises only when the variable is absent
(`os.getenv` returned `None`); the value is returned as-is, blank or
not. -/
def get_env_var_gpt (v : Option (List Char)) : EnvResult :=
  match v with
  | none => EnvResult.err
  | some s => EnvResult.ok s

/-- `get_env_var` of `md_to_notion.py`: raises when the variable is absent
or its value is empty or whitespace-only (`not var or not var.strip()`);
otherwise returns `var.strip()`. -/
def get_env_var_md (v : Option (List Char)) : EnvResult :=
  match v with
  | none => EnvResult.err
  | some s =>
    if s.isEmpty || (pystrip s).isEmpty then EnvResult.err
    else EnvResult.ok (pystrip s)

/-- A sample environment with no files and no successful uploads. -/
def fs0 : FS where
  pathExists := fun _ => false
  joinDir := fun p => ("dir/".data) ++ p
  uploadResult := fun _ => none

/-- A sample environment where `a.png` exists and uploads to a hosted
URL. -/
def fs1 : FS where
  pathExists := fun p => p = "a.png".data
  joinDir := fun p => ("dir/".data) ++ p
  uploadResult := fun p => if p = "a.png".data then some ("http://u".data) else none

/-! ## Lemmas about the span scanner -/

theorem leadsWith_eq_append :
    ∀ (p s : List Char), leadsWith p s = true → s = p ++ s.drop p.length := by
  intro p
  induction p with
  | nil => intro s _; simp
  | cons a ps ih =>
    intro s h
    cases s with
    | nil => simp [leadsWith] at h
    | cons c cs =>
      simp only [leadsWith, Bool.and_eq_true, beq_iff_eq] at h
      obtain ⟨h1, h2⟩ := h
      subst h1
      simpa using ih cs h2

theorem leadsWith_self_append (p t : List Char) : leadsWith p (p ++ t) = true := by
  induction p with
  | nil => rfl
  | cons a ps ih => simp [leadsWith, ih]

theorem trailsWith_append_self (l p : List Char) : trailsWith p (l ++ p) = true := by
  simp [trailsWith, List.reverse_append, leadsWith_self_append]

theorem lazyClose_eq_append (cl : List Char) :
    ∀ (s b r : List Char), lazyClose cl s = some (b, r) → s = b ++ cl ++ r := by
  intro s
  induction s with
  | nil => intro b r h; simp [lazyClose] at h
  | cons c cs ih =>
    intro b r h
    rw [lazyClose] at h
    by_cases hl : leadsWith cl (c :: cs) = true
    · rw [if_pos hl] at h
      have hstruct := leadsWith_eq_append cl (c :: cs) hl
      simp only [Option.some.injEq, Prod.mk.injEq] at h
      obtain ⟨hb, hr⟩ := h
      subst hb
      subst hr
      simpa using hstruct
    · rw [if_neg hl] at h
      by_cases hn : c = '\n'
      · rw [if_pos hn] at h; exact absurd h (by simp)
      · rw [if_neg hn] at h
        cases hrec : lazyClose cl cs with
        | none => rw [hrec] at h; exact absurd h (by simp)
        | some br =>
          obtain ⟨b', r'⟩ := br
          rw [hrec] at h
          simp only [Option.some.injEq, Prod.mk.injEq] at h
          obtain ⟨hb, hr⟩ := h
          subst hb
          subst hr
          simpa using ih b' r' hrec

theorem lazyClose_single_notMem (a : Char) :
    ∀ (s b r : List Char), lazyClose [a] s = some (b, r) → a ∉ b := by
  intro s
  induction s with
  | nil => intro b r h; simp [lazyClose] at h
  | cons c cs ih =>
    intro b r h
    rw [lazyClose] at h
    by_cases hl : leadsWith [a] (c :: cs) = true
    · rw [if_pos hl] at h
      simp only [Option.some.injEq, Prod.mk.injEq] at h
      obtain ⟨hb, _⟩ := h
      subst hb
      simp
    · rw [if_neg hl] at h
      have hac : ¬ a = c := by
        intro hac
        apply hl
        simp [leadsWith, hac]
      by_cases hn : c = '\n'
      · rw [if_pos hn] at h; exact absurd h (by simp)
      · rw [if_neg hn] at h
        cases hrec : lazyClose [a] cs with
        | none => rw [hrec] at h; exact absurd h (by simp)
        | some br =>
          obtain ⟨b', r'⟩ := br
          rw [hrec] at h
          simp only [Option.some.injEq, Prod.mk.injEq] at h
          obtain ⟨hb, hr⟩ := h
          subst hb
          subst hr
          intro hmem
          rcases List.mem_cons.mp hmem with h1 | h2
          · exact hac h1
          · exact ih b' r' hrec h2

theorem tryAlt_some {op cl s m r : List Char} (h : tryAlt op cl s = some (m, r)) :
    ∃ b, leadsWith op s = true ∧ lazyClose cl (s.drop op.length) = some (b, r) ∧
      m = op ++ b ++ cl := by
  unfold tryAlt at h
  by_cases hl : leadsWith op s = true
  · rw [if_pos hl] at h
    cases hc : lazyClose cl (s.drop op.length) with
    | none => rw [hc] at h; exact absurd h (by simp)
    | some br =>
      obtain ⟨b, r'⟩ := br
      rw [hc] at h
      simp only [Option.some.injEq, Prod.mk.injEq] at h
      obtain ⟨hm, hr⟩ := h
      subst hr
      exact ⟨b, hl, rfl, hm.symm⟩
  · rw [if_neg hl] at h; exact absurd h (by simp)

theorem tryAlt_eq_append {op cl s m r : List Char} (h : tryAlt op cl s = some (m, r)) :
    s = m ++ r := by
  obtain ⟨b, hl, hc, hm⟩ := tryAlt_some h
  have h1 := leadsWith_eq_append op s hl
  have h2 := lazyClose_eq_append cl (s.drop op.length) b r hc
  rw [h1, h2, hm]
  simp

theorem tryTok_cases {s m r : List Char} (h : tryTok s = some (m, r)) :
    tryAlt ddTok ddTok s = some (m, r) ∨
    (tryAlt ddTok ddTok s = none ∧ tryAlt dTok dTok s = some (m, r)) ∨
    (tryAlt ddTok ddTok s = none ∧ tryAlt dTok dTok s = none ∧
      tryAlt bTok bTok s = some (m, r)) := by
  unfold tryTok at h
  cases h1 : tryAlt ddTok ddTok s with
  | some v => rw [h1] at h; left; exact h
  | none =>
    rw [h1] at h
    replace h : (match tryAlt dTok dTok s with
        | some v => some v
        | none => tryAlt bTok bTok s) = some (m, r) := h
    cases h2 : tryAlt dTok dTok s with
    | some v => rw [h2] at h; right; left; exact ⟨rfl, h⟩
    | none => rw [h2] at h; right; right; exact ⟨rfl, rfl, h⟩

theorem tryTok_eq_append {s m r : List Char} (h : tryTok s = some (m, r)) :
    s = m ++ r := by
  rcases tryTok_cases h with h1 | ⟨_, h1⟩ | ⟨_, _, h1⟩ <;> exact tryAlt_eq_append h1

theorem tryTok_ne_nil {s m r : List Char} (h : tryTok s = some (m, r)) : m ≠ [] := by
  rcases tryTok_cases h with h1 | ⟨_, h1⟩ | ⟨_, _, h1⟩ <;>
    · obtain ⟨b, _, _, hm⟩ := tryAlt_some h1
      subst hm
      simp [ddTok, dTok, bTok]

theorem tryTok_rest_lt {s m r : List Char} (h : tryTok s = some (m, r)) :
    r.length < s.length := by
  have hs := tryTok_eq_append h
  have hm := tryTok_ne_nil h
  rw [hs, List.length_append]
  have : 0 < m.length := List.length_pos.mpr hm
  omega

theorem partsRaw_append (xs ys : List RichPart) :
    partsRaw (xs ++ ys) = partsRaw xs ++ partsRaw ys := by
  simp [partsRaw]

theorem partsRaw_flushGap (gap : List Char) :
    partsRaw (flushGap gap) = gap.reverse := by
  cases gap with
  | nil => simp [flushGap, partsRaw]
  | cons c cs => simp [flushGap, partsRaw, spanRaw]

theorem dropLast_append_one (l : List Char) (a : Char) : (l ++ [a]).dropLast = l := by
  simp

theorem drop_one_dTok (b : List Char) : ((dTok ++ b ++ dTok).drop 1).dropLast = b := by
  have hshape : dTok ++ b ++ dTok = '$' :: (b ++ ['$']) := by simp [dTok]
  rw [hshape]
  have h1 : ('$' :: (b ++ ['$'])).drop 1 = b ++ ['$'] := by simp
  rw [h1, dropLast_append_one]

theorem drop_two_bTok (b : List Char) :
    ((bTok ++ b ++ bTok).drop 2).dropLast.dropLast = b := by
  have hshape : bTok ++ b ++ bTok = '*' :: '*' :: (b ++ ['*', '*']) := by simp [bTok]
  rw [hshape]
  have h1 : ('*' :: '*' :: (b ++ ['*', '*'])).drop 2 = (b ++ ['*']) ++ ['*'] := by simp
  rw [h1, dropLast_append_one, dropLast_append_one]

theorem classify_dd (b : List Char) :
    classify (ddTok ++ b ++ ddTok) = [RichPart.plain (ddTok ++ b ++ ddTok)] := by
  have hlead : leadsWith ddTok (ddTok ++ b ++ ddTok) = true := by
    rw [List.append_assoc]; exact leadsWith_self_append _ _
  have htrail : trailsWith ddTok (ddTok ++ b ++ ddTok) = true :=
    trailsWith_append_self _ _
  unfold classify
  rw [hlead, htrail]
  rfl

theorem classify_d1 (x : Char) (xs : List Char) (hx : ¬ x = '$') :
    classify (dTok ++ (x :: xs) ++ dTok) = [RichPart.inlineEq (x :: xs)] := by
  have hxb : ('$' == x) = false := beq_eq_false_iff_ne.mpr (fun hc => hx hc.symm)
  have hshape : dTok ++ (x :: xs) ++ dTok = '$' :: x :: (xs ++ ['$']) := by
    simp [dTok]
  have hddf : leadsWith ddTok (dTok ++ (x :: xs) ++ dTok) = false := by
    rw [hshape]
    simp [ddTok, leadsWith, hxb]
  have hlead : leadsWith dTok (dTok ++ (x :: xs) ++ dTok) = true := by
    rw [List.append_assoc]; exact leadsWith_self_append _ _
  have htrail : trailsWith dTok (dTok ++ (x :: xs) ++ dTok) = true :=
    trailsWith_append_self _ _
  have hdrop := drop_one_dTok (x :: xs)
  unfold classify
  rw [hddf, hlead, htrail, hdrop]
  rfl

theorem classify_bb (b : List Char) :
    classify (bTok ++ b ++ bTok) = [RichPart.boldText b] := by
  have hshape : bTok ++ b ++ bTok = '*' :: '*' :: (b ++ ['*', '*']) := by
    simp [bTok]
  have hddf : leadsWith ddTok (bTok ++ b ++ bTok) = false := by
    rw [hshape]; simp [ddTok, leadsWith]
  have hdf : leadsWith dTok (bTok ++ b ++ bTok) = false := by
    rw [hshape]; simp [dTok, leadsWith]
  have hlead : leadsWith bTok (bTok ++ b ++ bTok) = true := by
    rw [List.append_assoc]; exact leadsWith_self_append _ _
  have htrail : trailsWith bTok (bTok ++ b ++ bTok) = true :=
    trailsWith_append_self _ _
  have hdrop := drop_two_bTok b
  unfold classify
  rw [hddf, hdf, hlead, htrail, hdrop]
  rfl

theorem classify_raw {s m r : List Char} (h : tryTok s = some (m, r)) :
    partsRaw (classify m) = m := by
  rcases tryTok_cases h with h1 | ⟨_, h1⟩ | ⟨_, _, h1⟩
  · -- `$$...$$` match: kept verbatim as plain text
    obtain ⟨b, _, _, hm⟩ := tryAlt_some h1
    subst hm
    rw [classify_dd]
    simp [partsRaw, spanRaw]
  · -- `$...$` match
    obtain ⟨b, _, hc, hm⟩ := tryAlt_some h1
    have hnot : '$' ∉ b := lazyClose_single_notMem '$' _ b _ hc
    subst hm
    cases b with
    | nil =>
      -- the degenerate match `$$`, classified as a literal `$$` token
      decide
    | cons x xs =>
      have hx : ¬ x = '$' := fun hxe => hnot (by simp [hxe])
      rw [classify_d1 x xs hx]
      simp [partsRaw, spanRaw, dTok]
  · -- `**...**` match
    obtain ⟨b, _, _, hm⟩ := tryAlt_some h1
    subst hm
    rw [classify_bb]
    simp [partsRaw, spanRaw, bTok]

theorem scanParts_raw :
    ∀ (fuel : Nat) (s gap : List Char), s.length < fuel →
      partsRaw (scanParts fuel gap s) = gap.reverse ++ s := by
  intro fuel
  induction fuel with
  | zero => intro s gap hlen; exact absurd hlen (Nat.not_lt_zero _)
  | succ n ih =>
    intro s gap hlen
    simp only [scanParts]
    split
    · next m r heq =>
      rw [partsRaw_append, partsRaw_append, partsRaw_flushGap, classify_raw heq,
        ih r [] (by have := tryTok_rest_lt heq; omega)]
      simp [tryTok_eq_append heq]
    · next heq =>
      cases s with
      | nil => simp [partsRaw_flushGap]
      | cons c cs =>
        rw [ih cs (c :: gap) (by simp only [List.length_cons] at hlen; omega)]
        simp

/-- C1: for every line, splitting it into rich-text spans with
`process_text_block` and concatenating the spans' raw contents (with the
stripped `$...$` and `**...**` delimiters re-inserted and `$$...$$` tokens
kept verbatim) reproduces the original line exactly, in original order. -/
theorem c1_roundtrip (line : List Char) :
    partsRaw (process_text_block line) = line := by
  have := scanParts_raw (line.length + 1) line [] (Nat.lt_succ_self _)
  simpa [process_text_block] using this

/-! ## Lemmas about the line-oriented parser -/

theorem processLine_blank (fs : FS) (st : Option (List (List Char))) (raw : List Char)
    (h : pystrip raw = []) : processLine fs st raw = (st, []) := by
  simp [processLine, h]

theorem processLine_heading (fs : FS) (st : Option (List (List Char))) (raw : List Char)
    (hb : pystrip raw ≠ []) (hh : isHeadingLine (pystrip raw) = true) :
    processLine fs st raw =
      (st, [Block.textB (headingT (firstTok (pystrip raw)).length)
        ((pystrip raw).drop ((firstTok (pystrip raw)).length + 1))]) := by
  simp [processLine, hb, hh]

theorem processLine_open (fs : FS) (raw : List Char) (h : pystrip raw = ddTok) :
    processLine fs none raw = (some [], []) := by
  simp [processLine, h, isHeadingLine, leadsWith, ddTok]

theorem processLine_close (fs : FS) (acc : List (List Char)) (raw : List Char)
    (h : pystrip raw = ddTok) :
    processLine fs (some acc) raw = (none, [Block.equationB (joinNL acc)]) := by
  simp [processLine, h, isHeadingLine, leadsWith, ddTok]

theorem processLine_acc (fs : FS) (acc : List (List Char)) (raw : List Char)
    (h1 : pystrip raw ≠ []) (h2 : isHeadingLine (pystrip raw) = false)
    (h3 : pystrip raw ≠ ddTok) :
    processLine fs (some acc) raw = (some (acc ++ [pystrip raw]), []) := by
  simp [processLine, h1, h2, h3]

theorem imgMatch_shape {line alt tgt : List Char}
    (h : imgMatch line = some (alt, tgt)) :
    ∃ rest, line = '!' :: '[' :: rest ∧ findAlt rest = some (alt, tgt) := by
  unfold imgMatch at h
  split at h
  · rename_i rest
    exact ⟨rest, rfl, h⟩
  · exact absurd h (by simp)

theorem runLines_append (fs : FS) (xs ys : List (List Char)) :
    ∀ st, runLines fs st (xs ++ ys) =
      ((runLines fs (runLines fs st xs).1 ys).1,
        (runLines fs st xs).2 ++ (runLines fs (runLines fs st xs).1 ys).2) := by
  induction xs with
  | nil => intro st; simp [runLines]
  | cons l ls ih => intro st; simp [runLines, ih]

theorem runLines_acc_mid (fs : FS) (mid : List (List Char))
    (h : ∀ l ∈ mid, pystrip l ≠ [] ∧ isHeadingLine (pystrip l) = false ∧
      pystrip l ≠ ddTok) :
    ∀ acc, runLines fs (some acc) mid = (some (acc ++ mid.map pystrip), []) := by
  induction mid with
  | nil => intro acc; simp [runLines]
  | cons l ls ih =>
    intro acc
    obtain ⟨h1, h2, h3⟩ := h l (List.mem_cons_self l ls)
    have hstep := processLine_acc fs acc l h1 h2 h3
    have hrest := ih (fun x hx => h x (List.mem_cons_of_mem l hx)) (acc ++ [pystrip l])
    simp [runLines, hstep, hrest]

theorem processLine_some_cases (fs : FS) (acc : List (List Char)) (raw : List Char)
    (h : pystrip raw ≠ ddTok) :
    (∃ k t, processLine fs (some acc) raw = (some acc, [Block.textB (headingT k) t])) ∨
    (∃ acc2, processLine fs (some acc) raw = (some acc2, [])) := by
  by_cases hb : pystrip raw = []
  · right; exact ⟨acc, processLine_blank fs _ raw hb⟩
  · by_cases hh : isHeadingLine (pystrip raw) = true
    · left
      exact ⟨(firstTok (pystrip raw)).length, _, processLine_heading fs _ raw hb hh⟩
    · right
      exact ⟨acc ++ [pystrip raw],
        processLine_acc fs acc raw hb (by simpa using hh) h⟩

theorem runLines_open_blocks (fs : FS) :
    ∀ (ls : List (List Char)), (∀ l ∈ ls, pystrip l ≠ ddTok) →
      ∀ acc, (∀ b ∈ (runLines fs (some acc) ls).2,
          ∃ k t, b = Block.textB (headingT k) t) ∧
        ∃ acc2, (runLines fs (some acc) ls).1 = some acc2 := by
  intro ls
  induction ls with
  | nil =>
    intro _ acc
    constructor
    · intro b hb; simp [runLines] at hb
    · exact ⟨acc, rfl⟩
  | cons l ls ih =>
    intro h acc
    rcases processLine_some_cases fs acc l (h l (List.mem_cons_self l ls)) with
      ⟨k, t, hp⟩ | ⟨acc2, hp⟩
    · obtain ⟨hblocks, hst⟩ := ih (fun x hx => h x (List.mem_cons_of_mem l hx)) acc
      constructor
      · intro b hb
        simp only [runLines, hp] at hb
        rcases List.mem_append.mp hb with hb | hb
        · exact ⟨k, t, by simpa using hb⟩
        · exact hblocks b hb
      · obtain ⟨a2, ha2⟩ := hst
        exact ⟨a2, by simp [runLines, hp, ha2]⟩
    · obtain ⟨hblocks, hst⟩ := ih (fun x hx => h x (List.mem_cons_of_mem l hx)) acc2
      constructor
      · intro b hb
        simp only [runLines, hp] at hb
        rcases List.mem_append.mp hb with hb | hb
        · exact absurd hb (by simp)
        · exact hblocks b hb
      · obtain ⟨a2, ha2⟩ := hst
        exact ⟨a2, by simp [runLines, hp, ha2]⟩

/-! ## The claims -/

/-- C2, counterexample: with the input `$$`, `# x`, `$$`, the in-between
line `# x` is not accumulated but emitted as a heading block (the heading
test precedes the accumulation test), and the equation block emitted on
the second `$$` has an empty expression rather than `# x`. -/
theorem c2_counterexample :
    parse_and_upload fs0 [ddTok, ['#', ' ', 'x'], ddTok] =
      [Block.textB (headingT 1) ['x'], Block.equationB []] ∧
    parse_and_upload fs0 [ddTok, ['#', ' ', 'x'], ddTok] ≠
      [Block.equationB ['#', ' ', 'x']] := by decide

/-- C2, amended: if none of the in-between lines is blank, a heading line
or a `$$` line, then between the blocks of the prefix and those of the
suffix exactly one Equation block is emitted, on the second `$$` line,
its expression the stripped in-between lines joined by newlines, and no
blocks are emitted for the in-between lines. -/
theorem c2_amended (fs : FS) (pre mid post : List (List Char)) (l1 l2 : List Char)
    (hpre : (runLines fs none pre).1 = none)
    (h1 : pystrip l1 = ddTok) (h2 : pystrip l2 = ddTok)
    (hmid : ∀ l ∈ mid, pystrip l ≠ [] ∧ isHeadingLine (pystrip l) = false ∧
      pystrip l ≠ ddTok)
    (_hne : mid ≠ []) :
    parse_and_upload fs (pre ++ (l1 :: (mid ++ (l2 :: post)))) =
      (runLines fs none pre).2 ++
        ([Block.equationB (joinNL (mid.map pystrip))] ++ (runLines fs none post).2) := by
  have hopen := processLine_open fs l1 h1
  have hmidrun := runLines_acc_mid fs mid hmid []
  have hclose := processLine_close fs (mid.map pystrip) l2 h2
  have hseg : runLines fs none (l1 :: (mid ++ (l2 :: post))) =
      ((runLines fs none post).1,
        [Block.equationB (joinNL (mid.map pystrip))] ++ (runLines fs none post).2) := by
    simp only [runLines, hopen]
    rw [runLines_append fs mid (l2 :: post) (some [])]
    rw [hmidrun]
    simp only [List.nil_append]
    simp [runLines, hclose]
  unfold parse_and_upload
  rw [runLines_append fs pre (l1 :: (mid ++ (l2 :: post))) none, hpre, hseg]

/-- C2, witness: a single accumulated line `a` between two `$$` lines
yields exactly the one equation block `a`. -/
theorem c2_witness :
    ((runLines fs0 none []).1 = none ∧ pystrip ddTok = ddTok ∧
      (∀ l ∈ [['a']], pystrip l ≠ [] ∧ isHeadingLine (pystrip l) = false ∧
        pystrip l ≠ ddTok) ∧
      ([['a']] : List (List Char)) ≠ []) ∧
    parse_and_upload fs0 ([] ++ (ddTok :: ([['a']] ++ (ddTok :: [])))) =
      (runLines fs0 none []).2 ++
        ([Block.equationB (joinNL ([['a']].map pystrip))] ++ (runLines fs0 none []).2) :=
  ⟨⟨rfl, by decide, by decide, by decide⟩,
    c2_amended fs0 [] [['a']] [] ddTok ddTok rfl (by decide) (by decide) (by decide)
      (by decide)⟩

/-- C3: for every line whose stripped form starts with `k` `#` characters
(1 ≤ k ≤ 3) followed by a space, the parser emits, from any accumulator
state, exactly one heading block of type `heading_k` whose text is the
remainder of the stripped line after the marker. -/
theorem c3_heading (fs : FS) (st : Option (List (List Char))) (raw rest : List Char)
    (k : Nat) (hk1 : 1 ≤ k) (hk3 : k ≤ 3)
    (h : pystrip raw = List.replicate k '#' ++ (' ' :: rest)) :
    processLine fs st raw = (st, [Block.textB (headingT k) rest]) := by
  interval_cases k
  · simp only [List.replicate, List.cons_append, List.nil_append] at h
    simp [processLine, h, isHeadingLine, leadsWith, firstTok, isPySpace, headingT]
  · simp only [List.replicate, List.cons_append, List.nil_append] at h
    simp [processLine, h, isHeadingLine, leadsWith, firstTok, isPySpace, headingT]
  · simp only [List.replicate, List.cons_append, List.nil_append] at h
    simp [processLine, h, isHeadingLine, leadsWith, firstTok, isPySpace, headingT]

/-- C3, witness: `# hi` becomes a `heading_1` block with text `hi`. -/
theorem c3_witness :
    (1 ≤ 1 ∧ (1 : Nat) ≤ 3 ∧
      pystrip ("# hi".data) = List.replicate 1 '#' ++ (' ' :: "hi".data)) ∧
    processLine fs0 none ("# hi".data) = (none, [Block.textB (headingT 1) ("hi".data)]) :=
  ⟨⟨by decide, by decide, by decide⟩,
    c3_heading fs0 none ("# hi".data) ("hi".data) 1 (by decide) (by decide) (by decide)⟩

/-- C4: a `$$...$$` match of the span regex (the first alternative, which
is what the scanner uses at such a position) is classified as a PlainText
span whose content is the whole match including both pairs of dollar
delimiters, not as an equation span. -/
theorem c4_block_token (s m r : List Char) (h : tryAlt ddTok ddTok s = some (m, r)) :
    tryTok s = some (m, r) ∧ classify m = [RichPart.plain m] := by
  constructor
  · unfold tryTok
    rw [h]
  · obtain ⟨b, _, _, hm⟩ := tryAlt_some h
    subst hm
    exact classify_dd b

/-- C4, witness: the token `$$x$$` is kept verbatim as plain text. -/
theorem c4_witness :
    tryAlt ddTok ddTok ("$$x$$".data) = some ("$$x$$".data, []) ∧
    (tryTok ("$$x$$".data) = some ("$$x$$".data, []) ∧
      classify ("$$x$$".data) = [RichPart.plain ("$$x$$".data)]) :=
  ⟨by decide, c4_block_token _ _ _ (by decide)⟩

/-- C5, counterexample: on the paragraph line `a$$b` the `$...$`
alternative produces the degenerate match `$$` at position 1 (the
`$$...$$` alternative does not match there for want of a closing `$$`),
and the code emits it as a literal PlainText span `$$` — not as an
InlineEquation span with the delimiters stripped (which would have the
empty expression). -/
theorem c5_counterexample :
    tryAlt ddTok ddTok ("$$b".data) = none ∧
    tryAlt dTok dTok ("$$b".data) = some (ddTok, ['b']) ∧
    tryTok ("$$b".data) = some (ddTok, ['b']) ∧
    classify ddTok = [RichPart.plain ddTok] ∧
    classify ddTok ≠ [RichPart.inlineEq ((ddTok.drop 1).dropLast)] ∧
    process_text_block ("a$$b".data) =
      [RichPart.plain ['a'], RichPart.plain ddTok, RichPart.plain ['b']] := by
  decide

/-- C5, amended: an inline `$...$` match that is not `$$`-shaped (i.e.
not the degenerate two-character match `$$`, which the code emits as
literal PlainText instead) becomes an InlineEquation span whose
expression is the match with the leading and trailing `$` removed, and a
`**...**` match becomes a BoldText span whose content is the match with
the leading and trailing `**` removed. -/
theorem c5_inline_spans (sa ma ra sb mb rb : List Char)
    (ha : tryAlt dTok dTok sa = some (ma, ra))
    (hnotdd : ¬ (leadsWith ddTok ma = true ∧ trailsWith ddTok ma = true))
    (hb : tryAlt bTok bTok sb = some (mb, rb)) :
    classify ma = [RichPart.inlineEq ((ma.drop 1).dropLast)] ∧
    classify mb = [RichPart.boldText ((mb.drop 2).dropLast.dropLast)] := by
  constructor
  · obtain ⟨b, _, hc, hm⟩ := tryAlt_some ha
    have hnot : '$' ∉ b := lazyClose_single_notMem '$' _ b _ hc
    subst hm
    cases b with
    | nil => exact absurd (by decide) hnotdd
    | cons x xs =>
      have hx : ¬ x = '$' := fun hxe => hnot (by simp [hxe])
      rw [classify_d1 x xs hx, drop_one_dTok]
  · obtain ⟨b, _, _, hm⟩ := tryAlt_some hb
    subst hm
    rw [classify_bb, drop_two_bTok]

/-- C5, witness: `$x^2$` yields the inline equation `x^2` and `**bold**`
yields the bold span `bold`. -/
theorem c5_witness :
    (tryAlt dTok dTok ("$x^2$".data) = some ("$x^2$".data, []) ∧
      ¬ (leadsWith ddTok ("$x^2$".data) = true ∧
          trailsWith ddTok ("$x^2$".data) = true) ∧
      tryAlt bTok bTok ("**bold**".data) = some ("**bold**".data, [])) ∧
    (classify ("$x^2$".data) = [RichPart.inlineEq (("$x^2$".data.drop 1).dropLast)] ∧
      classify ("**bold**".data) =
        [RichPart.boldText ((("**bold**".data).drop 2).dropLast.dropLast)]) :=
  ⟨⟨by decide, by decide, by decide⟩,
    c5_inline_spans ("$x^2$".data) ("$x^2$".data) [] ("**bold**".data)
      ("**bold**".data) [] (by decide) (by decide) (by decide)⟩

/-- C6: once a `$$` line opens accumulation mode with nothing to close it
later, the run emits only the prefix blocks and (for the suffix) heading
blocks: no Equation block and no block for any buffered line is ever
emitted, and the accumulator still holds at end-of-file (its content is
dropped when `parse_and_upload` returns). -/
theorem c6_unterminated (fs : FS) (pre rest : List (List Char)) (l1 : List Char)
    (hpre : (runLines fs none pre).1 = none)
    (h1 : pystrip l1 = ddTok)
    (hrest : ∀ l ∈ rest, pystrip l ≠ ddTok) :
    parse_and_upload fs (pre ++ (l1 :: rest)) =
      (runLines fs none pre).2 ++ (runLines fs (some []) rest).2 ∧
    (∀ b ∈ (runLines fs (some []) rest).2, ∃ k t, b = Block.textB (headingT k) t) ∧
    (∀ b ∈ (runLines fs (some []) rest).2, ∀ e, b ≠ Block.equationB e) ∧
    ∃ acc, (runLines fs (some []) rest).1 = some acc := by
  obtain ⟨hblocks, hst⟩ := runLines_open_blocks fs rest hrest []
  refine ⟨?_, hblocks, ?_, hst⟩
  · unfold parse_and_upload
    rw [runLines_append fs pre (l1 :: rest) none, hpre]
    simp [runLines, processLine_open fs l1 h1]
  · intro b hb e
    obtain ⟨k, t, hkt⟩ := hblocks b hb
    rw [hkt]
    simp

/-- C6, witness: `$$` followed only by `x` emits nothing and leaves the
accumulator holding `x`. -/
theorem c6_witness :
    ((runLines fs0 none []).1 = none ∧ pystrip ddTok = ddTok ∧
      (∀ l ∈ [['x']], pystrip l ≠ ddTok)) ∧
    (parse_and_upload fs0 ([] ++ (ddTok :: [['x']])) =
        (runLines fs0 none []).2 ++ (runLines fs0 (some []) [['x']]).2 ∧
      (∀ b ∈ (runLines fs0 (some []) [['x']]).2,
        ∃ k t, b = Block.textB (headingT k) t) ∧
      (∀ b ∈ (runLines fs0 (some []) [['x']]).2, ∀ e, b ≠ Block.equationB e) ∧
      ∃ acc, (runLines fs0 (some []) [['x']]).1 = some acc) :=
  ⟨⟨rfl, by decide, by decide⟩,
    c6_unterminated fs0 [] [['x']] ddTok rfl (by decide) (by decide)⟩

/-- C7: an image-reference line whose local target resolves and uploads to
a (non-empty) hosted URL submits an Image block with that URL, followed by
a `paragraph` text block holding the alt text exactly when the alt text is
non-empty, in that order. -/
theorem c7_image_success (fs : FS) (raw alt tgt u : List Char)
    (him : imgMatch (pystrip raw) = some (alt, tgt))
    (hh : leadsWith httpL tgt = false)
    (hres : resolveLocalImage fs tgt = some u)
    (hu : u ≠ []) :
    processLine fs none raw =
      (none, Block.imageB u ::
        (if alt = [] then [] else [Block.textB paragraphT alt])) := by
  obtain ⟨rest, hline, _⟩ := imgMatch_shape him
  rw [hline] at him
  simp [processLine, hline, isHeadingLine, leadsWith, ddTok, him, hh, hres, hu]

/-- C7, witness: `![cap](a.png)` with an existing `a.png` submits the
image block and then the alt-text block. -/
theorem c7_witness :
    (imgMatch (pystrip ("![cap](a.png)".data)) = some ("cap".data, "a.png".data) ∧
      leadsWith httpL ("a.png".data) = false ∧
      resolveLocalImage fs1 ("a.png".data) = some ("http://u".data) ∧
      ("http://u".data ≠ ([] : List Char))) ∧
    processLine fs1 none ("![cap](a.png)".data) =
      (none, Block.imageB ("http://u".data) ::
        (if "cap".data = ([] : List Char) then []
          else [Block.textB paragraphT ("cap".data)])) :=
  ⟨⟨by decide, by decide, by decide, by decide⟩,
    c7_image_success fs1 ("![cap](a.png)".data) ("cap".data) ("a.png".data)
      ("http://u".data) (by decide) (by decide) (by decide) (by decide)⟩

/-- C8: an image-reference line whose local target is missing (as given
and relative to the Markdown file's directory) or whose upload fails
submits no block at all, and the run continues with the remaining lines
unchanged. -/
theorem c8_image_failure (fs : FS) (raw alt tgt : List Char) (ls : List (List Char))
    (him : imgMatch (pystrip raw) = some (alt, tgt))
    (hh : leadsWith httpL tgt = false)
    (hres : resolveLocalImage fs tgt = none) :
    processLine fs none raw = (none, []) ∧
    runLines fs none (raw :: ls) = runLines fs none ls := by
  obtain ⟨rest, hline, _⟩ := imgMatch_shape him
  rw [hline] at him
  have hp : processLine fs none raw = (none, []) := by
    simp [processLine, hline, isHeadingLine, leadsWith, ddTok, him, hh, hres]
  exact ⟨hp, by simp [runLines, hp]⟩

/-- C8, witness: `![cap](b.png)` with no such file submits nothing and
the run continues. -/
theorem c8_witness :
    (imgMatch (pystrip ("![cap](b.png)".data)) = some ("cap".data, "b.png".data) ∧
      leadsWith httpL ("b.png".data) = false ∧
      resolveLocalImage fs0 ("b.png".data) = none) ∧
    (processLine fs0 none ("![cap](b.png)".data) = (none, []) ∧
      runLines fs0 none (("![cap](b.png)".data) :: []) = runLines fs0 none []) :=
  ⟨⟨by decide, by decide, by decide⟩,
    c8_image_failure fs0 ("![cap](b.png)".data) ("cap".data) ("b.png".data) []
      (by decide) (by decide) (by decide)⟩

/-- C9, counterexample: the single message's content is not the user's
prompt — `main` appends `'简要回答'` before calling `chat_with_gpt`. -/
theorem c9_counterexample :
    main_request ("hi".data) ≠ [ChatMessage.mk userRole ("hi".data)] := by decide

/-- C9, amended: for every prompt obtained from piped standard input or
the command-line arguments, the tool issues a single request whose
one-message conversation content is the user's prompt followed by
`'简要回答'`, and the displayed reply is the response's first choice
message content with surrounding whitespace stripped. -/
theorem c9_amended (api : List ChatMessage → List Char) (piped : Bool)
    (stdinText userPrompt : List Char) (argv : List (List Char))
    (_hp : mainPrompt piped stdinText argv = some userPrompt) :
    main_request userPrompt = [ChatMessage.mk userRole (userPrompt ++ briefSuffix)] ∧
    main_reply api userPrompt = pystrip (api (main_request userPrompt)) :=
  ⟨rfl, rfl⟩

/-- C9, witness: the piped prompt `hi` produces the one-message request
`hi简要回答` and the reply is the stripped response content. -/
theorem c9_witness :
    mainPrompt true ("hi".data) [] = some ("hi".data) ∧
    (main_request ("hi".data) = [ChatMessage.mk userRole (("hi".data) ++ briefSuffix)] ∧
      main_reply (fun _ => " ok ".data) ("hi".data) =
        pystrip ((fun _ => " ok ".data) (main_request ("hi".data)))) :=
  ⟨by decide, c9_amended (fun _ => " ok ".data) true ("hi".data) ("hi".data) []
    (by decide)⟩

/-- C10, counterexample: the chat tool's `get_env_var` accepts a
whitespace-only value without raising and returns it unstripped, so
startup does not fail on a blank credential there. -/
theorem c10_counterexample :
    get_env_var_gpt (some [' ']) = EnvResult.ok [' '] ∧
    pystrip [' '] = [] ∧
    get_env_var_gpt (some [' ']) ≠ EnvResult.err := by decide

/-- C10, amended: the uploader's `get_env_var` raises exactly when the
variable is absent or blank and otherwise returns the stripped value; the
chat tool's `get_env_var` raises exactly when the variable is absent and
otherwise returns the raw value, blank included. -/
theorem c10_amended (s t : List Char) (hs : pystrip s ≠ []) (ht : pystrip t = []) :
    get_env_var_md none = EnvResult.err ∧
    get_env_var_gpt none = EnvResult.err ∧
    get_env_var_md (some t) = EnvResult.err ∧
    get_env_var_md (some s) = EnvResult.ok (pystrip s) ∧
    get_env_var_gpt (some t) = EnvResult.ok t ∧
    get_env_var_gpt (some s) = EnvResult.ok s := by
  have hsne : s ≠ [] := fun he => hs (by rw [he]; rfl)
  refine ⟨rfl, rfl, ?_, ?_, rfl, rfl⟩
  · simp [get_env_var_md, ht]
  · simp [get_env_var_md, hs, hsne]

/-- C10, witness: `x` passes both variants (stripped by one, raw in the
other); a one-space value fails only the uploader's variant. -/
theorem c10_witness :
    (pystrip ("x".data) ≠ [] ∧ pystrip [' '] = []) ∧
    (get_env_var_md none = EnvResult.err ∧
      get_env_var_gpt none = EnvResult.err ∧
      get_env_var_md (some [' ']) = EnvResult.err ∧
      get_env_var_md (some ("x".data)) = EnvResult.ok (pystrip ("x".data)) ∧
      get_env_var_gpt (some [' ']) = EnvResult.ok [' '] ∧
      get_env_var_gpt (some ("x".data)) = EnvResult.ok ("x".data)) :=
  ⟨⟨by decide, by decide⟩, c10_amended ("x".data) [' '] (by decide) (by decide)⟩
